import Mathlib

/-!
Shallow embedding of the olo-id identifier engine: the syntax registry
(class OloIdSyntax), single identifiers (class OloId) and identifier sets
(class OloIdSet) from src/lib.  Strings are modelled as lists of
characters; the separator is modelled as a single character (every use in
the repository is a one-character separator such as '/' or '-').
JavaScript objects are modelled as insertion-ordered association lists,
JavaScript's truthiness test and the || / ?? operators are modelled
explicitly, and the process-wide mutable registry (the static fields of
OloIdSyntax) is threaded as an explicit state value.
-/

namespace Olo

/-- A JavaScript string, as a list of characters. -/
abbrev Str := List Char

/-- An identifier property value: the source type is string | number. -/
inductive Val where
  | str (s : Str)
  | num (n : Int)
deriving DecidableEq

/-- JavaScript truthiness for identifier values: the empty string and the
number 0 are falsy, everything else is truthy. -/
def Val.truthy : Val → Bool
  | .str s => !s.isEmpty
  | .num n => decide (n ≠ 0)

/-- Models the JavaScript expression o || d where o may be undefined
(modelled as none): the default d is taken when o is missing or falsy. -/
def jsOr (v : Option Val) (d : Val) : Val :=
  match v with
  | some x => if x.truthy then x else d
  | none => d

/-- JavaScript String() conversion of an identifier value, as used by
Array.prototype.join inside OloId.toString. -/
def valToStr : Val → Str
  | .str s => s
  | .num n => (toString n).toList

/-- The default separator character (src/types/olo-id.constants.ts). -/
def ID_TYPE_SEPARATOR : Char := '/'

/-- The sentinel syntax name string (constant ID_TYPE_UNDEFINED). -/
def ID_TYPE_UNDEFINED : Str := "UNDEFINED".toList

/-- The placeholder value for missing properties (ID_PROP_UNDEFINED). -/
def ID_PROP_UNDEFINED : Val := Val.str ID_TYPE_UNDEFINED

/-- An OloUri: a JavaScript object mapping property names to values,
modelled as an insertion-ordered association list. -/
abbrev OloUri := List (Str × Val)

/-- JavaScript property read m[k], returning undefined (none) when the key
is absent.  The first entry with the key is returned; objects built by
objUpd never hold a duplicate key, matching JavaScript objects. -/
def objGet {β : Type} (m : List (Str × β)) (k : Str) : Option β :=
  (m.find? (fun kv => kv.1 == k)).map Prod.snd

/-- JavaScript property write m[k] = v: an existing key keeps its position
and gets the new value, a fresh key is appended (JS insertion order). -/
def objUpd {β : Type} (m : List (Str × β)) (k : Str) (v : β) : List (Str × β) :=
  if m.any (fun kv => kv.1 == k) then m.map (fun kv => if kv.1 == k then (kv.1, v) else kv)
  else m ++ [(k, v)]

/-- String.prototype.split with a one-character separator: always returns
at least one (possibly empty) segment, like JavaScript's split. -/
def splitSep (sep : Char) : Str → List Str
  | [] => [[]]
  | c :: rest =>
    match splitSep sep rest with
    | [] => [[]]
    | seg :: segs => if c = sep then [] :: seg :: segs else (c :: seg) :: segs

/-- Array.prototype.join with a one-character separator. -/
def joinSep (sep : Char) : List Str → Str
  | [] => []
  | [s] => s
  | s :: t :: rest => s ++ sep :: joinSep sep (t :: rest)

/-- Lexicographic comparison of strings by character code, the default
comparator of Array.prototype.sort for strings. -/
def lexLe : Str → Str → Bool
  | [], _ => true
  | _ :: _, [] => false
  | a :: as, b :: bs => if a = b then lexLe as bs else decide (a < b)

/-- Stable insertion into a lexicographically sorted list of strings. -/
def insertSorted (x : Str) : List Str → List Str
  | [] => [x]
  | y :: ys => if lexLe x y then x :: y :: ys else y :: insertSorted x ys

/-- Array.prototype.sort() on strings (default lexicographic comparator),
as applied to Object.keys inside OloIdSyntax.normSyntax. -/
def sortStrs (l : List Str) : List Str := l.foldr insertSorted []

/-- The input type of OloIdSyntax.normSyntax and getSyntaxes:
string | string[] | OloUri | undefined. -/
inductive SyntaxInput where
  | str (s : Str)
  | arr (l : List Str)
  | obj (m : OloUri)
  | undef
deriving DecidableEq

/-- The syntax option accepted by OloId options and isSame options:
a separator-joined string or an array of names (TS: ConcatString | string[]). -/
inductive SynArg where
  | str (s : Str)
  | arr (l : List Str)
deriving DecidableEq

/-- Widening of a syntax option into the normSyntax input type. -/
def SynArg.toInput : SynArg → SyntaxInput
  | .str s => SyntaxInput.str s
  | .arr l => SyntaxInput.arr l

/-- OloIdSyntax.normSyntax: a string is split on the separator, an array is
taken as is, an object contributes its keys sorted alphabetically; the
result is filtered to the non-empty (truthy) names.  Note the source sorts
only object keys, not string or array input. -/
def normSyntax (sep : Char) : SyntaxInput → List Str
  | .str s => (splitSep sep s).filter (fun x => !x.isEmpty)
  | .arr l => l.filter (fun x => !x.isEmpty)
  | .obj m => (sortStrs (m.map Prod.fst)).filter (fun x => !x.isEmpty)
  | .undef => []

/-- Set.prototype.add on the insertion-ordered registry set. -/
def setAdd (s : List Str) (x : Str) : List Str := if x ∈ s then s else s ++ [x]

/-- Set.prototype.delete on the insertion-ordered registry set. -/
def setDelete (s : List Str) (x : Str) : List Str := s.filter (fun y => y ≠ x)

/-- OloIdSyntax.getSyntaxMatrix: each stored syntax string split back into
its ordered list of property names. -/
def getSyntaxMatrix (sep : Char) (set : List Str) : List (List Str) :=
  set.map (splitSep sep)

/-- OloIdSyntax.registerSyntaxes: each candidate is normalised; when
non-empty, the sentinel entry is deleted and the separator-joined
normal form is added to the registry set. -/
def registerSyntaxes (sep : Char) (set : List Str) (synts : List SyntaxInput) : List Str :=
  synts.foldl (fun acc syn =>
    let inputSyntax := normSyntax sep syn
    if inputSyntax.isEmpty then acc
    else setAdd (setDelete acc ID_TYPE_UNDEFINED) (joinSep sep inputSyntax)) set

/-- The matcher used inside OloIdSyntax.getSyntaxes: a registered syntax
matches when each of its names occurs in the queried name list and the
lengths agree. -/
def synMatch (inputSyntax : List Str) (t : List Str) : Bool :=
  ((t.filter (fun it => !(inputSyntax.contains it))).length == 0)
    && (t.length == inputSyntax.length)

/-- OloIdSyntax.getSyntaxes: an empty normalised query returns the whole
matrix; otherwise the first registered syntax with the same name multiset
test (synMatch) is returned; when none is found the normalised query
itself is returned, and additionally registered when register is true.
The second component is the registry set after the call. -/
def getSyntaxes (sep : Char) (set : List Str) (syn : SyntaxInput) (register : Bool) :
    List (List Str) × List Str :=
  let inputSyntax := normSyntax sep syn
  if inputSyntax.isEmpty then (getSyntaxMatrix sep set, set)
  else
    match (getSyntaxMatrix sep set).find? (synMatch inputSyntax) with
    | some s => ([s], set)
    | none =>
      ([inputSyntax],
        if register then registerSyntaxes sep set [SyntaxInput.arr inputSyntax] else set)

/-- The static state of class OloIdSyntax: the process-wide separator
(undefined until the first construction) and the registry Set of
separator-joined syntax strings, in insertion order. -/
structure OloIdSyntaxState where
  separator : Option Char
  syntaxes : List Str
deriving DecidableEq

/-- The default syntaxes argument of the OloIdSyntax constructor:
[ID_TYPE_UNDEFINED]. -/
def defaultSyntaxes : List SyntaxInput := [SyntaxInput.str ID_TYPE_UNDEFINED]

/-- The OloIdSyntax constructor: the global separator is set only when it
is still unset (separator ?? seperator), then the given syntaxes are
registered. -/
def mkOloIdSyntax (st : OloIdSyntaxState) (synts : List SyntaxInput) (seperator : Char) :
    OloIdSyntaxState :=
  let sep := st.separator.getD seperator
  ⟨some sep, registerSyntaxes sep st.syntaxes synts⟩

/-- OloIdSyntax.getSeparator: reads the static separator. -/
def getSeparator (st : OloIdSyntaxState) : Option Char := st.separator

/-- An OloId instance: its separator, its ordered syntax (property names)
and its property-to-value map.  The field holding this.syntax is called
synt here. -/
structure OloId where
  separator : Char
  synt : List Str
  uri : OloUri
deriving DecidableEq

/-- The options bag of the OloId constructor: syntax, register, separator. -/
structure OloIdOptions where
  synt : Option SynArg
  register : Bool
  separator : Option Char
deriving DecidableEq

/-- The uri argument of the OloId constructor:
OloUri | OloId | string. -/
inductive OloIdInput where
  | uri (m : OloUri)
  | id (x : OloId)
  | str (s : Str)
deriving DecidableEq

/-- OloId.toJSON: returns the internal property-to-value map. -/
def OloId.toJSON (id : OloId) : OloUri := id.uri

/-- The this.syntax.forEach((prop, index) => { this.uri[prop] = ... }) loop
of the OloId constructor, with the per-index value function f. -/
def buildUriAux (f : Nat → Str → Val) : Nat → List Str → OloUri → OloUri
  | _, [], acc => acc
  | i, k :: ks, acc => buildUriAux f (i + 1) ks (objUpd acc k (f i k))

/-- The value-population step of the OloId constructor: from a working uri
object each property is workingUri[prop] || "UNDEFINED"; from a string the
input is split on this.separator and each property is
uriList[index] || "UNDEFINED". -/
def buildUri (syn : List Str) (sep : Char) (workingUri : Option OloUri)
    (input : OloIdInput) : OloUri :=
  match workingUri, input with
  | some m, _ => buildUriAux (fun _ k => jsOr (objGet m k) ID_PROP_UNDEFINED) 0 syn []
  | none, .str s =>
    buildUriAux (fun i _ => jsOr (((splitSep sep s).get? i).map Val.str) ID_PROP_UNDEFINED)
      0 syn []
  | none, _ => []

/-- The working uri of the OloId constructor: an OloId input contributes
its toJSON() map, a plain map is taken as is, a string leaves it
undefined. -/
def workingUriOf : OloIdInput → Option OloUri
  | .id x => some (OloId.toJSON x)
  | .str _ => none
  | .uri m => some m

/-- The argument syntax ?? workingUri passed to getSyntaxes by the OloId
constructor. -/
def synInputOf (opts : OloIdOptions) (wu : Option OloUri) : SyntaxInput :=
  match opts.synt with
  | some sa => sa.toInput
  | none =>
    match wu with
    | some m => SyntaxInput.obj m
    | none => SyntaxInput.undef

/-- The OloId constructor.  The private field initialiser runs
new OloIdSyntax() with default arguments first; the instance separator is
separator ?? the global one; the syntax is resolved through
getSyntaxes(syntax ?? workingUri, register) and its first element taken
(none models the TypeError thrown when that element is undefined); the
value map is then populated.  Returns the instance together with the
static registry state after construction. -/
def mkOloId (st : OloIdSyntaxState) (input : OloIdInput) (opts : OloIdOptions) :
    Option (OloId × OloIdSyntaxState) :=
  let st1 := mkOloIdSyntax st defaultSyntaxes ID_TYPE_SEPARATOR
  let regSep := st1.separator.getD ID_TYPE_SEPARATOR
  let sep := opts.separator.getD regSep
  let workingUri := workingUriOf input
  let res := getSyntaxes regSep st1.syntaxes (synInputOf opts workingUri) opts.register
  match res.1.head? with
  | none => none
  | some syn => some (⟨sep, syn, buildUri syn sep workingUri input⟩, ⟨some regSep, res.2⟩)

/-- The comparand type of OloId.isSame:
string | OloUri | OloIdentifier (an OloId). -/
inductive CompInput where
  | str (s : Str)
  | map (m : OloUri)
  | id (x : OloId)
deriving DecidableEq

/-- OloId.isSame: an OloId comparand contributes its stored map; a string
comparand is parsed positionally against the explicit syntax option or,
failing that, this instance's own syntax (the whole string is taken as the
single value when that syntax has exactly one name, otherwise the string
is split on this.separator and missing segments become ''); a plain map is
compared directly.  The result requires the comparand's value to equal
this instance's value on every key of this.uri. -/
def OloId.isSame (self : OloId) (identifier : CompInput) (synOpt : Option SynArg) : Bool :=
  let compId : OloUri :=
    match identifier with
    | .id x => x.uri
    | .map m => m
    | .str t =>
      let syntaxList : List Str :=
        match synOpt with
        | some (SynArg.arr l) => l
        | some (SynArg.str u) => splitSep self.separator u
        | none => self.synt
      buildUriAux
        (fun i _ =>
          if syntaxList.length == 1 then Val.str t
          else Val.str (((splitSep self.separator t).get? i).getD []))
        0 syntaxList []
  (self.uri.map Prod.fst).all (fun key => objGet compId key == objGet self.uri key)

/-- OloId.toString: the values joined in syntax order (undefined values
render as the empty string under Array.prototype.join). -/
def OloId.toStr (id : OloId) (sep : Char) : Str :=
  joinSep sep (id.synt.map (fun key => ((objGet id.uri key).map valToStr).getD []))

/-- OloId.toSyntaxString: the property names joined in syntax order. -/
def OloId.toSyntaxString (id : OloId) (sep : Char) : Str :=
  joinSep sep id.synt

/-- An OloIdSet instance: its map from separator-joined syntax strings to
the OloId interpreting the underlying value under that syntax. -/
structure OloIdSet where
  uri : List (Str × OloId)
deriving DecidableEq

/-- The uri argument of the OloIdSet constructor:
OloUri | OloIdSet | OloIdMap | string. -/
inductive OloIdSetInput where
  | str (s : Str)
  | map (m : OloUri)
  | idmap (m : List (Str × OloId))
  | set (x : OloIdSet)
deriving DecidableEq

/-- OloIdSet.toJSON: merges the value maps of all member OloIds
(Object.assign semantics: later members overwrite on key collision while
an existing key keeps its position). -/
def OloIdSet.toJSON (uri : List (Str × OloId)) : OloUri :=
  (uri.map Prod.snd).foldl
    (fun json id => id.uri.foldl (fun j kv => objUpd j kv.1 kv.2) json) []

/-- The forEach loop of the OloUri/OloIdSet branch of the OloIdSet
constructor: one new OloId(workingUri, { syntax: syntaxItem, separator })
per resolved syntax, indexed by id.toSyntaxString(). -/
def buildSetIds (workingUri : OloUri) (sepo : Option Char) :
    List (List Str) → List (Str × OloId) → OloIdSyntaxState →
    Option (List (Str × OloId) × OloIdSyntaxState)
  | [], acc, st => some (acc, st)
  | synItem :: rest, acc, st =>
    match mkOloId st (.uri workingUri) ⟨some (SynArg.arr synItem), false, sepo⟩ with
    | none => none
    | some (id, st') =>
      buildSetIds workingUri sepo rest
        (objUpd acc (OloId.toSyntaxString id id.separator) id) st'

/-- The Object.keys(uri).map(uriKey => getSyntaxes(uriKey, {register})[0])
phase of the OloIdMap branch of the OloIdSet constructor. -/
def resolveSetKeys (register : Bool) :
    List Str → OloIdSyntaxState → List (List Str) × OloIdSyntaxState
  | [], st => ([], st)
  | k :: ks, st =>
    let regSep := st.separator.getD ID_TYPE_SEPARATOR
    let res := getSyntaxes regSep st.syntaxes (SyntaxInput.str k) register
    let rest := resolveSetKeys register ks ⟨st.separator, res.2⟩
    (((res.1.head?).getD []) :: rest.1, rest.2)

/-- The forEach phase of the OloIdMap branch: for each resolved syntax the
entry uri[syntaxKey] is copied through new OloId(uri[syntaxKey], opts);
a missing entry models the TypeError raised on new OloId(undefined). -/
def buildFromIdmap (mm : List (Str × OloId)) (opts : OloIdOptions) :
    List (List Str) → List (Str × OloId) → OloIdSyntaxState →
    Option (List (Str × OloId) × OloIdSyntaxState)
  | [], acc, st => some (acc, st)
  | synItem :: rest, acc, st =>
    let regSep := st.separator.getD ID_TYPE_SEPARATOR
    let syntaxKey := joinSep (opts.separator.getD regSep) synItem
    match objGet mm syntaxKey with
    | none => none
    | some idv =>
      match mkOloId st (.id idv) opts with
      | none => none
      | some (id, st') => buildFromIdmap mm opts rest (objUpd acc syntaxKey id) st'

/-- The OloUri / OloIdSet branch of the OloIdSet constructor: all
applicable syntaxes are obtained from getSyntaxes(workingUri, {register})
and one OloId is built per returned syntax. -/
def mkOloIdSetFromUri (st1 : OloIdSyntaxState) (workingUri : OloUri) (opts : OloIdOptions) :
    Option (OloIdSet × OloIdSyntaxState) :=
  let regSep := st1.separator.getD ID_TYPE_SEPARATOR
  let res := getSyntaxes regSep st1.syntaxes (SyntaxInput.obj workingUri) opts.register
  match buildSetIds workingUri opts.separator res.1 [] ⟨st1.separator, res.2⟩ with
  | none => none
  | some (ids, stF) => some (⟨ids⟩, stF)

/-- The OloIdSet constructor.  Its private field initialiser runs
new OloIdSyntax() with default arguments; then: a string input produces a
single OloId keyed by its syntax string; an object whose values are all
OloIds (in particular the empty object) is adopted through the OloIdMap
branch; any other object (and another OloIdSet, via toJSON of its member
map) goes through the all-applicable-syntaxes branch. -/
def mkOloIdSet (st : OloIdSyntaxState) (input : OloIdSetInput) (opts : OloIdOptions) :
    Option (OloIdSet × OloIdSyntaxState) :=
  let st1 := mkOloIdSyntax st defaultSyntaxes ID_TYPE_SEPARATOR
  match input with
  | .str s =>
    match mkOloId st1 (.str s) opts with
    | none => none
    | some (id, st2) =>
      some (⟨[(OloId.toSyntaxString id id.separator, id)]⟩, st2)
  | .map m =>
    if m.isEmpty then some (⟨[]⟩, st1)
    else mkOloIdSetFromUri st1 m opts
  | .set x => mkOloIdSetFromUri st1 (OloIdSet.toJSON x.uri) opts
  | .idmap mm =>
    let phase1 := resolveSetKeys opts.register (mm.map Prod.fst) st1
    match buildFromIdmap mm opts phase1.1 [] phase1.2 with
    | none => none
    | some (ids, stF) => some (⟨ids⟩, stF)

/-- The comparand type of OloIdSet.isSame:
string | OloUri | OloIdentifier | OloIdSet. -/
inductive SetCompInput where
  | str (s : Str)
  | map (m : OloUri)
  | id (x : OloId)
  | set (x : OloIdSet)
deriving DecidableEq

/-- Embedding of an OloId comparand into the OloIdSet comparand type. -/
def liftComp : CompInput → SetCompInput
  | .str s => SetCompInput.str s
  | .map m => SetCompInput.map m
  | .id x => SetCompInput.id x

/-- OloIdSet.isSame: another OloIdSet is first normalised to its merged
value map; the result is the reduce-with-|| of the member OloIds' own
isSame over the (normalised) comparand. -/
def OloIdSet.isSame (s : OloIdSet) (identifier : SetCompInput) (synOpt : Option SynArg) :
    Bool :=
  let idc : CompInput :=
    match identifier with
    | .set x => CompInput.map (OloIdSet.toJSON x.uri)
    | .str t => CompInput.str t
    | .map m => CompInput.map m
    | .id x => CompInput.id x
  (s.uri.map Prod.snd).foldl (fun result u => result || OloId.isSame u idc synOpt) false

/-- OloIdSet.toString: the member OloIds' string forms joined by a single
space, in member insertion order. -/
def OloIdSet.toStr (s : OloIdSet) : Str :=
  joinSep ' ' ((s.uri.map Prod.snd).map (fun id => OloId.toStr id id.separator))

/-- A value is a string not containing the given separator character. -/
def valSepFree (sep : Char) : Val → Prop
  | .str s => sep ∉ s
  | .num _ => False

instance (sep : Char) (v : Val) : Decidable (valSepFree sep v) := by
  cases v with
  | str s => exact inferInstanceAs (Decidable (sep ∉ s))
  | num n => exact inferInstanceAs (Decidable False)

/-- A registry holding the two syntaxes of the spec scenario,
registered on a fresh state. -/
def stTwoSyntaxes : OloIdSyntaxState :=
  mkOloIdSyntax ⟨none, []⟩
    [SyntaxInput.arr ["type".toList, "id".toList],
     SyntaxInput.arr ["username".toList, "domain".toList]] '/'

/-- The spec scenario map with type, id, username and domain keys. -/
def uriC1 : OloUri :=
  [("type".toList, Val.str "user".toList), ("id".toList, Val.str "123".toList),
   ("username".toList, Val.str "a".toList), ("domain".toList, Val.str "b.com".toList)]

/-- A registry holding only the syntax a/b, registered on a fresh state. -/
def stAB : OloIdSyntaxState :=
  mkOloIdSyntax ⟨none, []⟩ [SyntaxInput.arr ["a".toList, "b".toList]] '/'

/-- A one-property OloId (property p) whose value is the string x. -/
def idAsym1 : OloId := ⟨'/', ["p".toList], [("p".toList, Val.str "x".toList)]⟩

/-- A two-property OloId (p and q) agreeing with idAsym1 on p. -/
def idAsym2 : OloId :=
  ⟨'/', ["p".toList, "q".toList],
   [("p".toList, Val.str "x".toList), ("q".toList, Val.str "y".toList)]⟩

/-- A one-property OloId whose value contains the separator character. -/
def idSlash : OloId := ⟨'/', ["p".toList], [("p".toList, Val.str "x/y".toList)]⟩

/-- Concrete round-trip example: source state, map and syntax. -/
def mW : OloUri :=
  [("type".toList, Val.str "user".toList), ("id".toList, Val.str "123".toList)]

/-- The syntax of the concrete round-trip example. -/
def sW : List Str := ["type".toList, "id".toList]

/-- The OloId produced by the concrete round-trip example. -/
def idW : OloId :=
  ⟨'/', sW, [("type".toList, Val.str "user".toList), ("id".toList, Val.str "123".toList)]⟩

/-- The registry state after the concrete round-trip constructions. -/
def stWafter : OloIdSyntaxState := ⟨some '/', [ID_TYPE_UNDEFINED]⟩

theorem objGet_nil {β : Type} (k : Str) : objGet ([] : List (Str × β)) k = none := rfl

theorem objGet_cons {β : Type} (kv : Str × β) (t : List (Str × β)) (k2 : Str) :
    objGet (kv :: t) k2 = if kv.1 = k2 then some kv.2 else objGet t k2 := by
  by_cases h : kv.1 = k2
  · rw [objGet, List.find?_cons_of_pos _ (by simp [h]), if_pos h]
    rfl
  · rw [objGet, List.find?_cons_of_neg _ (by simp [h]), if_neg h]
    rfl

theorem objGet_map_upd {β : Type} (k k2 : Str) (v : β) :
    ∀ (m : List (Str × β)),
      objGet (m.map (fun kv => if kv.1 == k then (kv.1, v) else kv)) k2
        = if k2 = k then Option.map (fun _ => v) (objGet m k) else objGet m k2 := by
  intro m
  induction m with
  | nil => by_cases h : k2 = k <;> simp [objGet, h]
  | cons kv t ih =>
    rw [List.map_cons]
    by_cases hk : kv.1 = k
    · rw [if_pos (by simp [hk])]
      by_cases hkv2 : kv.1 = k2
      · have h2 : k2 = k := by rw [← hkv2, hk]
        rw [objGet_cons, if_pos hkv2, if_pos h2, objGet_cons, if_pos hk]
        rfl
      · have h2 : ¬k2 = k := fun h => hkv2 (by rw [hk, h])
        rw [objGet_cons]
        simp only [hkv2, if_false]
        rw [ih, if_neg h2, if_neg h2, objGet_cons, if_neg hkv2]
    · rw [if_neg (by simp [hk])]
      by_cases hkv2 : kv.1 = k2
      · have h2 : ¬k2 = k := fun h => hk (h ▸ hkv2)
        rw [objGet_cons, if_pos hkv2, if_neg h2, objGet_cons, if_pos hkv2]
      · rw [objGet_cons, if_neg hkv2, ih]
        by_cases h2 : k2 = k
        · rw [if_pos h2, if_pos h2, objGet_cons, if_neg (h2 ▸ hkv2)]
        · rw [if_neg h2, if_neg h2, objGet_cons, if_neg hkv2]

theorem objGet_objUpd {β : Type} (m : List (Str × β)) (k k2 : Str) (v : β) :
    objGet (objUpd m k v) k2 = if k2 = k then some v else objGet m k2 := by
  by_cases hm : m.any (fun kv => kv.1 == k)
  · have hU : objUpd m k v = m.map (fun kv => if kv.1 == k then (kv.1, v) else kv) := by
      unfold objUpd
      rw [if_pos hm]
    rw [hU, objGet_map_upd]
    by_cases h2 : k2 = k
    · rw [if_pos h2, if_pos h2]
      have hs : (m.find? (fun kv => kv.1 == k)).isSome = true := by
        rw [List.find?_isSome]
        exact List.any_eq_true.mp hm
      obtain ⟨w, hw⟩ := Option.isSome_iff_exists.mp hs
      rw [objGet, hw]
      rfl
    · rw [if_neg h2, if_neg h2]
  · have hU : objUpd m k v = m ++ [(k, v)] := by
      unfold objUpd
      rw [if_neg hm]
    rw [hU]
    have hnone : m.find? (fun kv => kv.1 == k) = none := by
      rw [List.find?_eq_none]
      intro x hx hpx
      exact hm (List.any_eq_true.mpr ⟨x, hx, hpx⟩)
    by_cases h2 : k2 = k
    · subst h2
      rw [if_pos rfl, objGet, List.find?_append, hnone]
      have hhead : List.find? (fun kv : Str × β => kv.1 == k2) [(k2, v)] = some (k2, v) :=
        List.find?_cons_of_pos _ (by simp)
      rw [hhead]
      rfl
    · rw [if_neg h2, objGet, List.find?_append, objGet]
      have htail : List.find? (fun kv : Str × β => kv.1 == k2) [(k, v)] = none := by
        apply List.find?_eq_none.mpr
        intro x hx
        have hx' : x = (k, v) := by simpa using hx
        subst hx'
        simp
        exact Ne.symm h2
      rw [htail]
      cases List.find? (fun kv => kv.1 == k2) m <;> rfl

theorem objGet_objUpd_self {β : Type} (m : List (Str × β)) (k : Str) (v : β) :
    objGet (objUpd m k v) k = some v := by
  simp [objGet_objUpd]

theorem objGet_objUpd_ne {β : Type} (m : List (Str × β)) {k k2 : Str} (v : β) (h : k2 ≠ k) :
    objGet (objUpd m k v) k2 = objGet m k2 := by
  simp [objGet_objUpd, h]

theorem buildUriAux_notmem (f : Nat → Str → Val) {l : List Str} {k : Str} (hk : k ∉ l) :
    ∀ (i : Nat) (acc : OloUri), objGet (buildUriAux f i l acc) k = objGet acc k := by
  induction l with
  | nil => intro i acc; rfl
  | cons k0 ks ih =>
    intro i acc
    have hks : k ∉ ks := fun h => hk (List.mem_cons_of_mem _ h)
    have hne : k ≠ k0 := fun h => hk (h ▸ List.mem_cons_self _ _)
    rw [buildUriAux, ih hks, objGet_objUpd_ne _ _ hne]

theorem buildUriAux_keyfun (g : Str → Val) (l : List Str) (k : Str) :
    ∀ (i : Nat) (acc : OloUri),
      objGet (buildUriAux (fun _ k2 => g k2) i l acc) k
        = if k ∈ l then some (g k) else objGet acc k := by
  induction l with
  | nil => intro i acc; simp [buildUriAux]
  | cons k0 ks ih =>
    intro i acc
    rw [buildUriAux, ih]
    by_cases hks : k ∈ ks
    · simp [hks]
    · by_cases hk0 : k = k0
      · simp [hks, hk0, objGet_objUpd]
      · simp [hks, hk0, objGet_objUpd_ne _ _ hk0]

theorem buildUriAux_idx (f : Nat → Str → Val) {l : List Str} (hnd : l.Nodup) :
    ∀ {j : Nat} {k : Str}, l.get? j = some k →
    ∀ (i : Nat) (acc : OloUri), objGet acc k = none →
      objGet (buildUriAux f i l acc) k = some (f (i + j) k) := by
  induction l with
  | nil => intro j k hj; simp at hj
  | cons k0 ks ih =>
    intro j k hj i acc hacc
    match j with
    | 0 =>
      have hk : k = k0 := by simpa using hj.symm
      subst hk
      have hks : k ∉ ks := by
        simpa using (List.nodup_cons.mp hnd).1
      rw [buildUriAux, buildUriAux_notmem _ hks, objGet_objUpd_self]
      simp
    | j + 1 =>
      have hj' : ks.get? j = some k := by simpa using hj
      have hkm : k ∈ ks := by
        rw [List.get?_eq_getElem?] at hj'
        exact List.mem_iff_getElem?.mpr ⟨j, hj'⟩
      have hne : k ≠ k0 := by
        intro h
        exact (List.nodup_cons.mp hnd).1 (h ▸ hkm)
      rw [buildUriAux]
      rw [ih (List.nodup_cons.mp hnd).2 hj' (i + 1) _
        (by rw [objGet_objUpd_ne _ _ hne]; exact hacc)]
      congr 2
      omega

theorem buildUriAux_congr {g1 g2 : Str → Val} (l : List Str)
    (h : ∀ k ∈ l, g1 k = g2 k) :
    ∀ (i : Nat) (acc : OloUri),
      buildUriAux (fun _ k => g1 k) i l acc = buildUriAux (fun _ k => g2 k) i l acc := by
  induction l with
  | nil => intro i acc; rfl
  | cons k0 ks ih =>
    intro i acc
    rw [buildUriAux, buildUriAux,
      h k0 (List.mem_cons_self _ _),
      ih (fun k hk => h k (List.mem_cons_of_mem _ hk))]

theorem splitSep_of_not_mem {sep : Char} : ∀ {s : Str}, sep ∉ s → splitSep sep s = [s] := by
  intro s
  induction s with
  | nil => intro _; rfl
  | cons c rest ih =>
    intro h
    have hc : c ≠ sep := fun hc => h (hc ▸ List.mem_cons_self _ _)
    have hr : sep ∉ rest := fun hr => h (List.mem_cons_of_mem _ hr)
    rw [splitSep, ih hr]
    simp [hc]

theorem splitSep_append {sep : Char} (w : Str) :
    ∀ {s : Str}, sep ∉ s → splitSep sep (s ++ sep :: w) = s :: splitSep sep w := by
  intro s
  induction s with
  | nil =>
    intro _
    rw [List.nil_append, splitSep]
    match hw : splitSep sep w with
    | [] => rfl
    | seg :: segs => simp
  | cons c rest ih =>
    intro h
    have hc : c ≠ sep := fun hc => h (hc ▸ List.mem_cons_self _ _)
    have hr : sep ∉ rest := fun hr => h (List.mem_cons_of_mem _ hr)
    rw [List.cons_append, splitSep, ih hr]
    simp [hc]

theorem splitSep_joinSep {sep : Char} :
    ∀ {vs : List Str}, vs ≠ [] → (∀ v ∈ vs, sep ∉ v) →
      splitSep sep (joinSep sep vs) = vs := by
  intro vs
  induction vs with
  | nil => intro h; exact absurd rfl h
  | cons v rest ih =>
    intro _ hfree
    match rest with
    | [] =>
      rw [joinSep]
      exact splitSep_of_not_mem (hfree v (List.mem_cons_self _ _))
    | t :: ts =>
      rw [joinSep, splitSep_append _ (hfree v (List.mem_cons_self _ _)),
        ih (by simp) (fun u hu => hfree u (List.mem_cons_of_mem _ hu))]

theorem foldl_or_eq_any {α : Type} (p : α → Bool) (l : List α) :
    ∀ b : Bool, l.foldl (fun r a => r || p a) b = (b || l.any p) := by
  induction l with
  | nil => intro b; simp
  | cons a t ih =>
    intro b
    rw [List.foldl_cons, ih, List.any_cons, Bool.or_assoc]

theorem getSyntaxes_false_snd (sep : Char) (set : List Str) (si : SyntaxInput) :
    (getSyntaxes sep set si false).2 = set := by
  rw [getSyntaxes]
  split
  · rfl
  · split <;> rfl

theorem setDelete_of_not_mem {L : List Str} {x : Str} (h : x ∉ L) : setDelete L x = L := by
  rw [setDelete, List.filter_eq_self]
  intro a ha
  simp only [ne_eq, decide_eq_true_eq]
  exact fun hax => h (hax ▸ ha)

theorem not_mem_setDelete (L : List Str) (x : Str) : x ∉ setDelete L x := by
  intro h
  rw [setDelete, List.mem_filter] at h
  simpa using h.2

theorem setDelete_append (L1 L2 : List Str) (x : Str) :
    setDelete (L1 ++ L2) x = setDelete L1 x ++ setDelete L2 x := by
  unfold setDelete
  exact List.filter_append _ _

theorem setAdd_setDelete_setAdd {D : List Str} (j u : Str) (hu : u ∉ D) :
    setAdd (setDelete (setAdd D j) u) j = setAdd D j := by
  by_cases hj : j ∈ D
  · have hA : setAdd D j = D := by
      unfold setAdd
      rw [if_pos hj]
    rw [hA, setDelete_of_not_mem hu, hA]
  · have hA : setAdd D j = D ++ [j] := by
      unfold setAdd
      rw [if_neg hj]
    rw [hA]
    by_cases hju : j = u
    · subst hju
      have h1 : setDelete (D ++ [j]) j = D := by
        rw [setDelete_append, setDelete_of_not_mem hu]
        have : setDelete [j] j = [] := by
          unfold setDelete
          simp
        rw [this, List.append_nil]
      rw [h1]
      unfold setAdd
      rw [if_neg hj]
    · have h1 : setDelete (D ++ [j]) u = D ++ [j] := by
        rw [setDelete_append, setDelete_of_not_mem hu,
          setDelete_of_not_mem (by simp; exact fun h => hju h.symm)]
      rw [h1]
      unfold setAdd
      rw [if_pos (by simp)]

theorem registerSyntaxes_single_idem (sep : Char) (L : List Str) (si : SyntaxInput) :
    registerSyntaxes sep (registerSyntaxes sep L [si]) [si]
      = registerSyntaxes sep L [si] := by
  rw [registerSyntaxes, registerSyntaxes, List.foldl_cons, List.foldl_cons,
    List.foldl_nil, List.foldl_nil]
  by_cases he : (normSyntax sep si).isEmpty
  · simp [he]
  · simp only [he, Bool.false_eq_true, if_false]
    exact setAdd_setDelete_setAdd _ _ (not_mem_setDelete L ID_TYPE_UNDEFINED)

theorem mkOloIdSyntax_separator (st : OloIdSyntaxState) (synts : List SyntaxInput)
    (sep2 : Char) :
    (mkOloIdSyntax st synts sep2).separator = some (st.separator.getD sep2) := rfl

theorem mkOloIdSyntax_syntaxes (st : OloIdSyntaxState) (synts : List SyntaxInput)
    (sep2 : Char) :
    (mkOloIdSyntax st synts sep2).syntaxes
      = registerSyntaxes (st.separator.getD sep2) st.syntaxes synts := rfl

/-- Inversion of a successful mkOloId run: exposes the resolved syntax,
the produced instance and the final registry state. -/
theorem mkOloId_inv {st : OloIdSyntaxState} {input : OloIdInput} {opts : OloIdOptions}
    {id : OloId} {st' : OloIdSyntaxState}
    (h : mkOloId st input opts = some (id, st')) :
    ∃ syn,
      (getSyntaxes (st.separator.getD ID_TYPE_SEPARATOR)
          (registerSyntaxes (st.separator.getD ID_TYPE_SEPARATOR) st.syntaxes
            defaultSyntaxes)
          (synInputOf opts (workingUriOf input)) opts.register).1.head? = some syn
      ∧ id = ⟨opts.separator.getD (st.separator.getD ID_TYPE_SEPARATOR), syn,
          buildUri syn (opts.separator.getD (st.separator.getD ID_TYPE_SEPARATOR))
            (workingUriOf input) input⟩
      ∧ st' = ⟨some (st.separator.getD ID_TYPE_SEPARATOR),
          (getSyntaxes (st.separator.getD ID_TYPE_SEPARATOR)
            (registerSyntaxes (st.separator.getD ID_TYPE_SEPARATOR) st.syntaxes
              defaultSyntaxes)
            (synInputOf opts (workingUriOf input)) opts.register).2⟩ := by
  unfold mkOloId at h
  simp only [mkOloIdSyntax_separator, mkOloIdSyntax_syntaxes, Option.getD_some] at h
  cases hhead : (getSyntaxes (st.separator.getD ID_TYPE_SEPARATOR)
      (registerSyntaxes (st.separator.getD ID_TYPE_SEPARATOR) st.syntaxes defaultSyntaxes)
      (synInputOf opts (workingUriOf input)) opts.register).1.head? with
  | none =>
    rw [hhead] at h
    exact absurd h (by simp)
  | some syn =>
    rw [hhead] at h
    refine ⟨syn, rfl, ?_, ?_⟩
    · exact (Prod.mk.injEq _ _ _ _ ▸ (Option.some.inj h)).1.symm
    · exact (Prod.mk.injEq _ _ _ _ ▸ (Option.some.inj h)).2.symm

theorem objGet_filter_ne {β : Type} (m : List (Str × β)) (p : Str) {k : Str} (h : k ≠ p) :
    objGet (m.filter (fun kv => !(kv.1 == p))) k = objGet m k := by
  induction m with
  | nil => rfl
  | cons kv t ih =>
    by_cases hkp : kv.1 = p
    · rw [List.filter_cons_of_neg (by simp [hkp]), ih, objGet_cons,
        if_neg (fun hh => h (by rw [← hh, hkp]))]
    · rw [List.filter_cons_of_pos (by simp [hkp]), objGet_cons, objGet_cons]
      by_cases hk : kv.1 = k <;> simp [hk, ih]

theorem objGet_filter_self {β : Type} (m : List (Str × β)) (p : Str) :
    objGet (m.filter (fun kv => !(kv.1 == p))) p = none := by
  rw [objGet]
  have : List.find? (fun kv : Str × β => kv.1 == p) (m.filter (fun kv => !(kv.1 == p)))
      = none := by
    rw [List.find?_eq_none]
    intro x hx
    have := (List.mem_filter.mp hx).2
    simpa using this
  rw [this]
  rfl

theorem mem_of_objGet {β : Type} {m : List (Str × β)} {k : Str} {v : β}
    (h : objGet m k = some v) : (k, v) ∈ m := by
  rw [objGet] at h
  cases hf : m.find? (fun kv => kv.1 == k) with
  | none => rw [hf] at h; exact absurd h (by simp)
  | some kv =>
    rw [hf] at h
    have hk : kv.1 = k := by simpa using List.find?_some hf
    have hv : kv.2 = v := by simpa using h
    have : kv = (k, v) := Prod.ext hk hv
    exact this ▸ List.mem_of_find?_eq_some hf

theorem truthy_ID_PROP_UNDEFINED : ID_PROP_UNDEFINED.truthy = true := by decide

theorem jsOr_truthy (o : Option Val) : (jsOr o ID_PROP_UNDEFINED).truthy = true := by
  cases o with
  | none => decide
  | some x =>
    by_cases hx : x.truthy
    · rw [jsOr, if_pos hx]
      exact hx
    · rw [jsOr, if_neg hx]
      decide

/-- Two map inputs whose populated values agree key-wise produce the same
OloId under the same explicit syntax option. -/
theorem mkOloId_uri_congr (st : OloIdSyntaxState) (m1 m2 : OloUri) (sa : SynArg)
    (register : Bool) (sepo : Option Char)
    (hvals : ∀ k, jsOr (objGet m1 k) ID_PROP_UNDEFINED
      = jsOr (objGet m2 k) ID_PROP_UNDEFINED) :
    mkOloId st (OloIdInput.uri m1) ⟨some sa, register, sepo⟩
      = mkOloId st (OloIdInput.uri m2) ⟨some sa, register, sepo⟩ := by
  unfold mkOloId
  simp only [workingUriOf, synInputOf]
  cases hhead : (getSyntaxes ((mkOloIdSyntax st defaultSyntaxes ID_TYPE_SEPARATOR).separator.getD
      ID_TYPE_SEPARATOR)
      (mkOloIdSyntax st defaultSyntaxes ID_TYPE_SEPARATOR).syntaxes
      (SynArg.toInput sa) register).1.head? with
  | none => rfl
  | some syn =>
    have hb : buildUri syn (sepo.getD ((mkOloIdSyntax st defaultSyntaxes
          ID_TYPE_SEPARATOR).separator.getD ID_TYPE_SEPARATOR)) (some m1)
          (OloIdInput.uri m1)
        = buildUri syn (sepo.getD ((mkOloIdSyntax st defaultSyntaxes
          ID_TYPE_SEPARATOR).separator.getD ID_TYPE_SEPARATOR)) (some m2)
          (OloIdInput.uri m2) := by
      unfold buildUri
      exact buildUriAux_congr syn (fun k _ => hvals k) 0 []
    simp only [hb]

theorem foldl_mkOloIdSyntax_separator {c : Char} :
    ∀ (steps : List (List SyntaxInput × Char)) (st : OloIdSyntaxState),
      st.separator = some c →
      (steps.foldl (fun s pr => mkOloIdSyntax s pr.1 pr.2) st).separator = some c := by
  intro steps
  induction steps with
  | nil => intro st h; exact h
  | cons p t ih =>
    intro st h
    rw [List.foldl_cons]
    exact ih _ (by rw [mkOloIdSyntax_separator, h, Option.getD_some])

/-- C8: the process-wide separator is set exactly once, by the first
constructed registry/identifier instance (every identifier construction
passes through the same OloIdSyntax field initialiser); any sequence of
later constructions, whatever separators they supply, leaves it unchanged,
so getSeparator() returns the first-set value thereafter. -/
theorem C8_separator_first_write_wins (st0 : OloIdSyntaxState)
    (h0 : st0.separator = none) (args0 : List SyntaxInput) (c0 : Char)
    (steps : List (List SyntaxInput × Char)) :
    getSeparator
        (steps.foldl (fun s pr => mkOloIdSyntax s pr.1 pr.2)
          (mkOloIdSyntax st0 args0 c0))
      = some c0 := by
  rw [getSeparator]
  exact foldl_mkOloIdSyntax_separator steps _ (by rw [mkOloIdSyntax_separator, h0]; rfl)

/-- Witness for C8 at a fresh state: the first instance sets '-', a later
instance supplying '/' does not change it. -/
theorem C8_separator_first_write_wins_witness :
    (⟨none, []⟩ : OloIdSyntaxState).separator = none
    ∧ getSeparator
        ([([], '/')].foldl (fun s pr => mkOloIdSyntax s pr.1 pr.2)
          (mkOloIdSyntax ⟨none, []⟩ [] '-'))
      = some '-' :=
  ⟨rfl, C8_separator_first_write_wins ⟨none, []⟩ rfl [] '-' [([], '/')]⟩

/-- C4: OloId.isSame is driven by the receiver's own property set: for a
map or OloId comparand it returns true exactly when the comparand's value
equals the receiver's stored value at every name of the receiver's syntax
(comparand properties outside that set are ignored); consequently the
relation is directional, witnessed by a concrete pair where a.isSame(b)
and b.isSame(a) disagree. -/
theorem C4_isSame_receiver_property_set :
    (∀ (self : OloId) (m : OloUri), self.uri.map Prod.fst = self.synt →
      (OloId.isSame self (CompInput.map m) none = true ↔
        ∀ k ∈ self.synt, objGet m k = objGet self.uri k))
    ∧ (∀ (self x : OloId), self.uri.map Prod.fst = self.synt →
      (OloId.isSame self (CompInput.id x) none = true ↔
        ∀ k ∈ self.synt, objGet x.uri k = objGet self.uri k))
    ∧ OloId.isSame idAsym1 (CompInput.id idAsym2) none = true
    ∧ OloId.isSame idAsym2 (CompInput.id idAsym1) none = false := by
  refine ⟨?_, ?_, by decide, by decide⟩
  · intro self m hwf
    rw [OloId.isSame, hwf, List.all_eq_true]
    simp only [beq_iff_eq]
  · intro self x hwf
    rw [OloId.isSame, hwf, List.all_eq_true]
    simp only [beq_iff_eq]

/-- Witness for C4 at a concrete receiver and map comparand. -/
theorem C4_isSame_receiver_property_set_witness :
    idAsym1.uri.map Prod.fst = idAsym1.synt
    ∧ (OloId.isSame idAsym1 (CompInput.map [("p".toList, Val.str "x".toList)]) none = true ↔
        ∀ k ∈ idAsym1.synt,
          objGet [("p".toList, Val.str "x".toList)] k = objGet idAsym1.uri k) :=
  ⟨by decide, C4_isSame_receiver_property_set.1 idAsym1 _ (by decide)⟩

/-- C5: IdentifierSet OR-law.  For every set and every comparand (string,
map or Identifier), set.isSame is true exactly when at least one member
Identifier's own isSame on that comparand is true. -/
theorem C5_set_isSame_or_law (s : OloIdSet) (x : CompInput) (synOpt : Option SynArg) :
    OloIdSet.isSame s (liftComp x) synOpt = true ↔
      ∃ id ∈ s.uri.map Prod.snd, OloId.isSame id x synOpt = true := by
  cases x <;>
    simp only [OloIdSet.isSame, liftComp, foldl_or_eq_any, Bool.false_or,
      List.any_eq_true]

/-- C10: when isSame receives a string comparand and the effective syntax
is the receiver's own single-name syntax, the whole string is the
candidate value, without splitting on the separator: the comparison
succeeds exactly on the full stored string, even when it contains the
separator character. -/
theorem C10_single_name_no_split (self : OloId) (p t s : Str)
    (hsyn : self.synt = [p]) (huri : self.uri = [(p, Val.str s)]) :
    OloId.isSame self (CompInput.str t) none = true ↔ t = s := by
  rw [OloId.isSame, hsyn, huri]
  simp [buildUriAux, objUpd, objGet, List.find?, jsOr]

/-- Witness for C10: a value containing the separator still compares equal
to the full string. -/
theorem C10_single_name_no_split_witness :
    idSlash.synt = ["p".toList] ∧ idSlash.uri = [("p".toList, Val.str "x/y".toList)]
    ∧ OloId.isSame idSlash (CompInput.str "x/y".toList) none = true :=
  ⟨rfl, rfl, (C10_single_name_no_split idSlash "p".toList "x/y".toList "x/y".toList
    rfl rfl).mpr rfl⟩

/-- C6: an Identifier constructed from a key/value map stores the
"UNDEFINED" placeholder in toJSON() for every property of its syntax that
is absent from the map, and every name of the syntax is present in the
value map with a defined value. -/
theorem C6_missing_property_placeholder (st : OloIdSyntaxState) (m : OloUri)
    (opts : OloIdOptions) (id : OloId) (st' : OloIdSyntaxState)
    (h1 : mkOloId st (OloIdInput.uri m) opts = some (id, st')) :
    (∀ p ∈ id.synt, objGet m p = none →
      objGet (OloId.toJSON id) p = some ID_PROP_UNDEFINED)
    ∧ ∀ q ∈ id.synt, (objGet (OloId.toJSON id) q).isSome = true := by
  obtain ⟨syn, hhead, hid, hst⟩ := mkOloId_inv h1
  have hsynt : id.synt = syn := by rw [hid]
  have huri : id.uri
      = buildUriAux (fun _ k => jsOr (objGet m k) ID_PROP_UNDEFINED) 0 syn [] := by
    rw [hid]
    rfl
  constructor
  · intro p hp hnone
    rw [OloId.toJSON, huri, buildUriAux_keyfun, if_pos (hsynt ▸ hp), hnone]
    rfl
  · intro q hq
    rw [OloId.toJSON, huri, buildUriAux_keyfun, if_pos (hsynt ▸ hq)]
    rfl

/-- Witness for C6: syntax section/key with the map providing only
section. -/
theorem C6_missing_property_placeholder_witness :
    mkOloId ⟨some '/', []⟩ (OloIdInput.uri [("section".toList, Val.str "config".toList)])
        ⟨some (SynArg.arr ["section".toList, "key".toList]), false, none⟩
      = some (⟨'/', ["section".toList, "key".toList],
          [("section".toList, Val.str "config".toList),
           ("key".toList, ID_PROP_UNDEFINED)]⟩, ⟨some '/', [ID_TYPE_UNDEFINED]⟩)
    ∧ objGet (OloId.toJSON (⟨'/', ["section".toList, "key".toList],
          [("section".toList, Val.str "config".toList),
           ("key".toList, ID_PROP_UNDEFINED)]⟩ : OloId)) "key".toList
        = some ID_PROP_UNDEFINED :=
  ⟨by decide,
   (C6_missing_property_placeholder ⟨some '/', []⟩
     [("section".toList, Val.str "config".toList)]
     ⟨some (SynArg.arr ["section".toList, "key".toList]), false, none⟩
     ⟨'/', ["section".toList, "key".toList],
       [("section".toList, Val.str "config".toList),
        ("key".toList, ID_PROP_UNDEFINED)]⟩
     ⟨some '/', [ID_TYPE_UNDEFINED]⟩ (by decide)).1
     "key".toList (by decide) (by decide)⟩

/-- C9: a provided but falsy property value (the empty string or the
number 0) is replaced by the "UNDEFINED" placeholder exactly as if the
property were missing: dropping the falsy entry from the source map yields
the very same constructed Identifier (hence equal toJSON and toString);
and an empty string segment of a string input likewise stores the
placeholder. -/
theorem C9_falsy_value_as_missing :
    (∀ (st : OloIdSyntaxState) (m : OloUri) (p : Str) (v : Val) (sa : SynArg)
        (register : Bool) (sepo : Option Char),
      objGet m p = some v → v.truthy = false →
      mkOloId st (OloIdInput.uri m) ⟨some sa, register, sepo⟩
        = mkOloId st (OloIdInput.uri (m.filter (fun kv => !(kv.1 == p))))
            ⟨some sa, register, sepo⟩)
    ∧ (∀ (st : OloIdSyntaxState) (s : Str) (opts : OloIdOptions) (id : OloId)
        (st' : OloIdSyntaxState) (i : Nat) (k : Str),
      mkOloId st (OloIdInput.str s) opts = some (id, st') →
      id.synt.Nodup → id.synt.get? i = some k →
      ((splitSep id.separator s).get? i).getD [] = [] →
      objGet (OloId.toJSON id) k = some ID_PROP_UNDEFINED) := by
  constructor
  · intro st m p v sa register sepo hv hfalsy
    apply mkOloId_uri_congr
    intro k
    by_cases hk : k = p
    · subst hk
      rw [hv, objGet_filter_self, jsOr, jsOr, if_neg (by rw [hfalsy]; simp)]
    · rw [objGet_filter_ne m p hk]
  · intro st s opts id st' i k h1 hnd hget hseg
    obtain ⟨syn, hhead, hid, hst⟩ := mkOloId_inv h1
    have hsynt : id.synt = syn := by rw [hid]
    have hsep : id.separator
        = opts.separator.getD (st.separator.getD ID_TYPE_SEPARATOR) := by rw [hid]
    have huri : id.uri
        = buildUriAux (fun j _ =>
            jsOr (((splitSep id.separator s).get? j).map Val.str) ID_PROP_UNDEFINED)
          0 syn [] := by
      rw [hsep, hid]
      rfl
    have hnd' : syn.Nodup := hsynt ▸ hnd
    have hget' : syn.get? i = some k := hsynt ▸ hget
    rw [OloId.toJSON, huri,
      buildUriAux_idx _ hnd' hget' 0 [] (objGet_nil k), Nat.zero_add]
    cases hsg : (splitSep id.separator s).get? i with
    | none => rfl
    | some seg =>
      have hseg' : seg = [] := by
        rw [hsg] at hseg
        simpa using hseg
      subst hseg'
      rfl

theorem contains_eq_decide_mem (l : List Str) (a : Str) :
    l.contains a = decide (a ∈ l) := by
  by_cases h : a ∈ l
  · rw [decide_eq_true h]
    exact List.elem_iff.mpr h
  · rw [decide_eq_false h]
    cases hc : l.contains a with
    | false => rfl
    | true => exact absurd (List.elem_iff.mp hc) h

theorem normSyntax_arr_eq {sep : Char} {S : List Str} (hx : ∀ x ∈ S, x ≠ []) :
    normSyntax sep (SyntaxInput.arr S) = S := by
  rw [normSyntax]
  apply List.filter_eq_self.mpr
  intro a ha
  rw [List.isEmpty_eq_false.mpr (hx a ha)]
  rfl

/-- C2 (amended): for syntaxes S and S' with the same name set (S
registered first, its joined form being the first matching registry
entry): resolving either S or S' returns the single-element result holding
S in its first-registered order, and re-registering S itself leaves the
registry unchanged; registering S' in a different declared order, however,
appends a separate entry for S' (the part of the original claim the code
violates). -/
theorem C2_resolve_registered_order (sep : Char) (L : List Str) (S Sp : List Str)
    (hperm : S.Perm Sp) (hS : S ≠ []) (hx : ∀ x ∈ S, x ≠ [] ∧ sep ∉ x)
    (hU : ID_TYPE_UNDEFINED ∉ L)
    (hfirst : L.find? (fun e => synMatch S (splitSep sep e)) = some (joinSep sep S)) :
    (getSyntaxes sep L (SyntaxInput.arr S) false).1 = [S]
    ∧ (getSyntaxes sep L (SyntaxInput.arr Sp) false).1 = [S]
    ∧ registerSyntaxes sep L [SyntaxInput.arr S] = L
    ∧ (joinSep sep Sp ∉ L →
        registerSyntaxes sep L [SyntaxInput.arr Sp] = L ++ [joinSep sep Sp]) := by
  have hxSp : ∀ x ∈ Sp, x ≠ [] ∧ sep ∉ x := fun x hxm => hx x (hperm.mem_iff.mpr hxm)
  have hSp : Sp ≠ [] := by
    intro h
    rw [h] at hperm
    exact hS (List.Perm.eq_nil hperm)
  have hSnorm : normSyntax sep (SyntaxInput.arr S) = S :=
    normSyntax_arr_eq (fun x hxm => (hx x hxm).1)
  have hSpnorm : normSyntax sep (SyntaxInput.arr Sp) = Sp :=
    normSyntax_arr_eq (fun x hxm => (hxSp x hxm).1)
  have hSfree : ∀ v ∈ S, sep ∉ v := fun v hv => (hx v hv).2
  have hsplitjoin : splitSep sep (joinSep sep S) = S := splitSep_joinSep hS hSfree
  have hcont : ∀ it : Str, Sp.contains it = S.contains it := by
    intro it
    rw [contains_eq_decide_mem, contains_eq_decide_mem]
    by_cases hxm : it ∈ S
    · rw [decide_eq_true hxm, decide_eq_true (hperm.mem_iff.mp hxm)]
    · rw [decide_eq_false hxm, decide_eq_false (fun hc => hxm (hperm.mem_iff.mpr hc))]
  have hpredeq : (fun e => synMatch Sp (splitSep sep e))
      = (fun e => synMatch S (splitSep sep e)) := by
    funext e
    rw [synMatch, synMatch, hperm.length_eq]
    have hfn : (fun it => !(Sp.contains it)) = (fun it : Str => !(S.contains it)) := by
      funext it
      rw [hcont]
    rw [hfn]
  have hjoinmem : joinSep sep S ∈ L := List.mem_of_find?_eq_some hfirst
  refine ⟨?_, ?_, ?_, ?_⟩
  · rw [getSyntaxes]
    simp only [hSnorm, List.isEmpty_eq_false.mpr hS, Bool.false_eq_true, if_false,
      getSyntaxMatrix, List.find?_map]
    rw [Function.comp_def, hfirst]
    simp [hsplitjoin]
  · rw [getSyntaxes]
    simp only [hSpnorm, List.isEmpty_eq_false.mpr hSp, Bool.false_eq_true, if_false,
      getSyntaxMatrix, List.find?_map]
    rw [Function.comp_def, hpredeq, hfirst]
    simp [hsplitjoin]
  · rw [registerSyntaxes, List.foldl_cons, List.foldl_nil]
    simp only [hSnorm, List.isEmpty_eq_false.mpr hS, Bool.false_eq_true, if_false]
    rw [setDelete_of_not_mem hU, setAdd, if_pos hjoinmem]
  · intro hnotin
    rw [registerSyntaxes, List.foldl_cons, List.foldl_nil]
    simp only [hSpnorm, List.isEmpty_eq_false.mpr hSp, Bool.false_eq_true, if_false]
    rw [setDelete_of_not_mem hU, setAdd, if_neg hnotin]

/-- Witness for C2 at the registry holding only a/b, resolving the
reversed order b,a. -/
theorem C2_resolve_registered_order_witness :
    (getSyntaxes '/' ["a/b".toList] (SyntaxInput.arr ["b".toList, "a".toList]) false).1
      = [["a".toList, "b".toList]] :=
  (C2_resolve_registered_order '/' ["a/b".toList] ["a".toList, "b".toList]
    ["b".toList, "a".toList] (by decide) (by decide) (by decide) (by decide)
    (by decide)).2.1

/-- C2 counterexample: the original claim says re-registering the same
name set in a different order leaves the registry count unchanged; the
code appends a second entry b/a next to a/b. -/
theorem C2_duplicate_entry_counterexample :
    (registerSyntaxes '/' ["a/b".toList]
        [SyntaxInput.arr ["b".toList, "a".toList]]).length
      ≠ (["a/b".toList] : List Str).length := by decide

/-- C1 (code evaluation at the failing input): with syntaxes type/id and
username/domain registered, the IdentifierSet built from the four-key map
holds exactly ONE member (keyed by the sorted ad-hoc syntax
domain/id/type/username), its toString() is "b.com/123/user/a", and both
isSame("user/123", {syntax:[type,id]}) and
isSame({username:"a", domain:"b.com"}) return false — the code builds one
Identifier for the whole key set instead of one per matching registered
syntax. -/
theorem C1_code_builds_single_member :
    (mkOloIdSet stTwoSyntaxes (OloIdSetInput.map uriC1) ⟨none, false, none⟩).map
        (fun r => (r.1.uri.length, OloIdSet.toStr r.1,
          OloIdSet.isSame r.1 (SetCompInput.str "user/123".toList)
            (some (SynArg.arr ["type".toList, "id".toList])),
          OloIdSet.isSame r.1
            (SetCompInput.map [("username".toList, Val.str "a".toList),
              ("domain".toList, Val.str "b.com".toList)]) none))
      = some (1, "b.com/123/user/a".toList, false, false) := by decide

/-- C3 (code evaluation at the failing input): after registering the valid
syntax a/b the sentinel is gone and a no-argument resolve returns only
[[a,b]]; but constructing an OloId afterwards (whose field initialiser
runs new OloIdSyntax() with the default ["UNDEFINED"] syntax list) re-adds
the sentinel to the registry, and resolve() then returns it again. -/
theorem C3_sentinel_reappears :
    (getSyntaxes '/' stAB.syntaxes SyntaxInput.undef false).1
        = [["a".toList, "b".toList]]
    ∧ ID_TYPE_UNDEFINED ∉ stAB.syntaxes
    ∧ (mkOloId stAB (OloIdInput.str "x".toList)
        ⟨some (SynArg.arr ["a".toList, "b".toList]), false, none⟩).map
        (fun r => (decide (ID_TYPE_UNDEFINED ∈ r.2.syntaxes),
          (getSyntaxes '/' r.2.syntaxes SyntaxInput.undef false).1))
      = some (true, [["a".toList, "b".toList], [ID_TYPE_UNDEFINED]]) := by decide

/-- C7 (amended): round trip.  For an Identifier built from a map under an
explicit syntax, whose stored values are all strings free of the
separator, re-parsing its toString() under the same declared syntax (and
the registry state left by the first construction) reproduces the same
toJSON() map. -/
theorem C7_round_trip_string_values
    (st : OloIdSyntaxState) (m : OloUri) (S : List Str) (sepo : Option Char)
    (id id2 : OloId) (st1 st2 : OloIdSyntaxState)
    (h1 : mkOloId st (OloIdInput.uri m) ⟨some (SynArg.arr S), false, sepo⟩
      = some (id, st1))
    (h2 : mkOloId st1 (OloIdInput.str (OloId.toStr id id.separator))
        ⟨some (SynArg.arr S), false, sepo⟩ = some (id2, st2))
    (hnd : id.synt.Nodup)
    (hstr : ∀ kv ∈ id.uri, valSepFree id.separator kv.2) :
    ∀ k, objGet (OloId.toJSON id2) k = objGet (OloId.toJSON id) k := by
  obtain ⟨syn, hhead, hid, hst1⟩ := mkOloId_inv h1
  obtain ⟨syn2, hhead2, hid2, hst2x⟩ := mkOloId_inv h2
  simp only [synInputOf, workingUriOf, SynArg.toInput] at hhead hhead2
  rw [getSyntaxes_false_snd] at hst1
  rw [hst1] at hhead2 hid2
  simp only [Option.getD_some, defaultSyntaxes] at hhead hhead2 hid2
  rw [registerSyntaxes_single_idem] at hhead2
  rw [hhead] at hhead2
  have hsyneq : syn2 = syn := (Option.some.inj hhead2).symm
  rw [hsyneq] at hid2
  have hsynt : id.synt = syn := by rw [hid]
  have hndsyn : syn.Nodup := hsynt ▸ hnd
  have hsep : id.separator
      = sepo.getD (st.separator.getD ID_TYPE_SEPARATOR) := by rw [hid]
  have huri : id.uri
      = buildUriAux (fun _ k => jsOr (objGet m k) ID_PROP_UNDEFINED) 0 syn [] := by
    rw [hid]
    rfl
  have hval : ∀ k ∈ syn, objGet id.uri k
      = some (jsOr (objGet m k) ID_PROP_UNDEFINED) := by
    intro k hk
    rw [huri, buildUriAux_keyfun, if_pos hk]
  have hstrv : ∀ k ∈ syn, ∃ sk, jsOr (objGet m k) ID_PROP_UNDEFINED = Val.str sk
      ∧ id.separator ∉ sk ∧ sk ≠ [] := by
    intro k hk
    have hmem : (k, jsOr (objGet m k) ID_PROP_UNDEFINED) ∈ id.uri :=
      mem_of_objGet (hval k hk)
    have hsf := hstr _ hmem
    have htr := jsOr_truthy (objGet m k)
    cases hjs : jsOr (objGet m k) ID_PROP_UNDEFINED with
    | num n =>
      rw [hjs] at hsf
      exact absurd hsf (by simp [valSepFree])
    | str sk =>
      rw [hjs] at hsf htr
      refine ⟨sk, rfl, hsf, ?_⟩
      intro hemp
      rw [hemp] at htr
      exact absurd htr (by decide)
  have hT : OloId.toStr id id.separator
      = joinSep id.separator
          (syn.map (fun k => valToStr (jsOr (objGet m k) ID_PROP_UNDEFINED))) := by
    rw [OloId.toStr, hsynt]
    congr 1
    apply List.map_congr_left
    intro k hk
    rw [hval k hk]
    rfl
  intro k
  by_cases hk : k ∈ syn
  · have hsynne : syn ≠ [] := List.ne_nil_of_mem hk
    have hfreeT : ∀ v ∈ syn.map
        (fun k => valToStr (jsOr (objGet m k) ID_PROP_UNDEFINED)),
        id.separator ∉ v := by
      intro v hv
      obtain ⟨k', hk', hveq⟩ := List.mem_map.mp hv
      obtain ⟨sk, hsk, hfree, _⟩ := hstrv k' hk'
      rw [← hveq, hsk]
      exact hfree
    have hsplitT : splitSep id.separator (OloId.toStr id id.separator)
        = syn.map (fun k => valToStr (jsOr (objGet m k) ID_PROP_UNDEFINED)) := by
      rw [hT]
      exact splitSep_joinSep (by rw [ne_eq, List.map_eq_nil_iff]; exact hsynne) hfreeT
    have huri2 : id2.uri
        = buildUriAux (fun j _ =>
            jsOr (((splitSep id.separator (OloId.toStr id id.separator)).get? j).map
              Val.str) ID_PROP_UNDEFINED) 0 syn [] := by
      rw [hid2, hsep]
      rfl
    obtain ⟨j, hj⟩ : ∃ j, syn.get? j = some k := by
      obtain ⟨n, hn⟩ := List.mem_iff_getElem?.mp hk
      exact ⟨n, by rw [List.get?_eq_getElem?]; exact hn⟩
    rw [OloId.toJSON, OloId.toJSON, huri2,
      buildUriAux_idx _ hndsyn hj 0 [] (objGet_nil k), Nat.zero_add, huri,
      buildUriAux_keyfun, if_pos hk, hsplitT, List.get?_map, hj, Option.map_some',
      Option.map_some']
    obtain ⟨sk, hsk, hfree, hne⟩ := hstrv k hk
    rw [hsk]
    simp [jsOr, Val.truthy, List.isEmpty_eq_false.mpr hne, valToStr]
  · have huri2 : id2.uri
        = buildUriAux (fun j _ =>
            jsOr (((splitSep id.separator (OloId.toStr id id.separator)).get? j).map
              Val.str) ID_PROP_UNDEFINED) 0 syn [] := by
      rw [hid2, hsep]
      rfl
    rw [OloId.toJSON, OloId.toJSON, huri2, buildUriAux_notmem _ hk, huri,
      buildUriAux_notmem _ hk]

/-- Witness for C7 at the concrete map type:user, id:"123" under syntax
type/id on a fresh state. -/
theorem C7_round_trip_string_values_witness :
    mkOloId ⟨none, []⟩ (OloIdInput.uri mW) ⟨some (SynArg.arr sW), false, none⟩
        = some (idW, stWafter)
    ∧ mkOloId stWafter (OloIdInput.str (OloId.toStr idW idW.separator))
        ⟨some (SynArg.arr sW), false, none⟩ = some (idW, stWafter)
    ∧ objGet (OloId.toJSON idW) "type".toList = objGet (OloId.toJSON idW) "type".toList :=
  ⟨by decide, by decide,
   C7_round_trip_string_values ⟨none, []⟩ mW sW none idW idW stWafter stWafter
     (by decide) (by decide) (by decide) (by decide) "type".toList⟩

/-- C7 counterexample: a number value round-trips into the string "5", so
toJSON() differs after re-parsing toString() — the original claim fails
for non-string values. -/
theorem C7_number_value_counterexample :
    (mkOloId ⟨some '/', ([] : List Str)⟩ (OloIdInput.uri [("k".toList, Val.num 5)])
        ⟨some (SynArg.arr ["k".toList]), false, none⟩).bind
      (fun r => (mkOloId r.2 (OloIdInput.str (OloId.toStr r.1 r.1.separator))
        ⟨some (SynArg.arr ["k".toList]), false, none⟩).map
          (fun r2 => decide (OloId.toJSON r2.1 = OloId.toJSON r.1)))
      = some false := by decide

/-- Witness for C9: the empty-string value for a (and the string input
"/v" whose first segment is empty) store the placeholder. -/
theorem C9_falsy_value_as_missing_witness :
    objGet [("a".toList, Val.str []), ("b".toList, Val.num 1)] "a".toList
        = some (Val.str [])
    ∧ (Val.str []).truthy = false
    ∧ mkOloId ⟨some '/', []⟩
        (OloIdInput.uri [("a".toList, Val.str []), ("b".toList, Val.num 1)])
        ⟨some (SynArg.arr ["a".toList, "b".toList]), false, none⟩
      = mkOloId ⟨some '/', []⟩
        (OloIdInput.uri
          (([("a".toList, Val.str []), ("b".toList, Val.num 1)]).filter
            (fun kv => !(kv.1 == "a".toList))))
        ⟨some (SynArg.arr ["a".toList, "b".toList]), false, none⟩ :=
  ⟨by decide, by decide,
   C9_falsy_value_as_missing.1 ⟨some '/', []⟩ _ "a".toList (Val.str []) _ false none
     (by decide) (by decide)⟩

end Olo
